import Mathlib

/-!
Verification of `generate_rss_feed.py`.

The script reads podcast RSS feeds, extracts article links from episode
descriptions, and republishes them as an RSS 2.0 feed plus paginated HTML
pages.  We embed its pure logic shallowly:

* HTML parsing (BeautifulSoup) is an external capability; we model the parsed
  description as a tree of `Node`s and translate the traversal and filtering
  of `extract_article_links` over that tree.
* `urllib.parse.urlparse(...).hostname` and Python string primitives
  (`strip`, `lower`, `in`, `startswith`, `endswith`, `split`, `int(...)`) are
  modelled character-by-character on `List Char`.
* Feed fetching, the clock and RFC-822 date formatting/parsing are external;
  they enter as parameters (`fmt`, `now`, `pd`, `fetch`).  Timestamps are
  modelled as `Nat` (seconds since the epoch; the epoch itself is `0`).
-/

/-- Python `str.strip()` on a character list (trim whitespace on both ends). -/
def pyStripL (l : List Char) : List Char :=
  ((l.dropWhile Char.isWhitespace).reverse.dropWhile Char.isWhitespace).reverse

/-- Python `str.strip()`. -/
def pyStrip (s : String) : String := ⟨pyStripL s.data⟩

/-- Python `str.lower()` (ASCII, which covers every string the script tests). -/
def pyLower (s : String) : String := ⟨s.data.map Char.toLower⟩

/-- `sub` occurs as a contiguous infix of the list (Python `sub in s`). -/
def containsSubL (sub : List Char) : (s : List Char) → Bool
  | [] => sub.isEmpty
  | c :: t => sub.isPrefixOf (c :: t) || containsSubL sub t

/-- Python `sub in s` on strings. -/
def containsSub (sub s : String) : Bool := containsSubL sub.data s.data

/-- Python `s.endswith(suf)`. -/
def strEndsWith (suf s : String) : Bool := suf.data.isSuffixOf s.data

/-- Python `s.startswith(p)`. -/
def strStartsWith (p s : String) : Bool := p.data.isPrefixOf s.data

/-- A node of the parsed HTML description: a string node or a tag with
attributes and children (the interface `extract_article_links` consumes from
BeautifulSoup). -/
inductive Node where
  | text (s : String)
  | elem (tag : String) (attrs : List (String × String)) (children : List Node)

mutual

/-- Document-order (pre-order) flattening of one node: the node itself, then
its descendants.  BeautifulSoup's `next_elements` of a node is exactly the
suffix of this sequence after that node. -/
def flatten : Node → List Node
  | .text s => [.text s]
  | .elem t a c => .elem t a c :: flattenList c

/-- Document-order flattening of a forest. -/
def flattenList : List Node → List Node
  | [] => []
  | n :: ns => flatten n ++ flattenList ns

end

/-- The tag name of a node (`None` for string nodes, mirroring
`hasattr(elem, "name")`). -/
def tagOf : Node → Option String
  | .text _ => none
  | .elem t _ _ => some t

/-- The attribute list of a node. -/
def attrsOf : Node → List (String × String)
  | .text _ => []
  | .elem _ a _ => a

/-- The children of a node. -/
def childrenOf : Node → List Node
  | .text _ => []
  | .elem _ _ c => c

/-- `elem.get(key)`: first attribute with the given name, if any. -/
def attrGet (attrs : List (String × String)) (key : String) : Option String :=
  match attrs.find? (fun p => p.1 == key) with
  | some p => some p.2
  | none => none

/-- `elem.get_text(strip=True)`: every string in the subtree, stripped, and
concatenated in document order. -/
def getTextStrip (n : Node) : String :=
  ⟨((flatten n).filterMap (fun m =>
      match m with
      | .text s => some (pyStripL s.data)
      | .elem _ _ _ => none)).flatten⟩

/-- `elem.find("strong") is not None`: some descendant is a `<strong>` tag. -/
def hasStrongDescendant (n : Node) : Bool :=
  (flattenList (childrenOf n)).any (fun m => tagOf m == some "strong")

/-- The marker phrases looked for in bold headings. -/
def markers : List String := ["free to read", "mentioned in this podcast"]

/-- A `<strong>` tag whose stripped, lowercased text contains a marker. -/
def isMarkerStrong (n : Node) : Bool :=
  tagOf n == some "strong" &&
    markers.any (fun m => containsSub m (pyLower (getTextStrip n)))

/-- The href substrings that exclude a link. -/
def exclude_substrings : List String :=
  ["ft.com/techtonicsurvey", "ft.com/survey", "ep.ft.com", "subscribe",
   "newsletters", "newsletter", "ft.com/support"]

/-- The anchor-text keywords that exclude a link. -/
def text_keywords : List String :=
  ["sign up", "subscribe", "transcript", "survey", "newsletter", "twitter"]

/-- A character allowed in a URL scheme after the leading letter. -/
def isSchemeChar (c : Char) : Bool :=
  c.isAlpha || c.isDigit || c == '+' || c == '-' || c == '.'

/-- Modelled from `urllib.parse.urlparse`: remove a leading `scheme:` when the
text before the first colon is a well-formed scheme. -/
def dropScheme (l : List Char) : List Char :=
  match l.span (fun c => c != ':') with
  | (pre, rest) =>
    match rest with
    | ':' :: post =>
        match pre with
        | [] => l
        | c :: cs => if c.isAlpha && cs.all isSchemeChar then post else l
    | _ => l

/-- Modelled from `urlparse`: the netloc is the text after a leading `//`
(once the scheme is removed), up to the first `/`, `?` or `#`. -/
def netlocOf (l : List Char) : List Char :=
  match dropScheme l with
  | '/' :: '/' :: rest => rest.takeWhile (fun c => c != '/' && c != '?' && c != '#')
  | _ => []

/-- Modelled from `urlparse(href).hostname or ""`: the netloc after the last
`@`, without the port (or without brackets for an IPv6 literal), lowercased;
the empty string stands for Python's `None`. -/
def hostnameOf (href : String) : String :=
  let nl := netlocOf href.data
  let afterAt := (nl.reverse.takeWhile (fun c => c != '@')).reverse
  let host :=
    match afterAt with
    | '[' :: rest => rest.takeWhile (fun c => c != ']')
    | _ => afterAt.takeWhile (fun c => c != ':')
  ⟨host.map Char.toLower⟩

/-- The anchor-filtering chain of `extract_article_links`, applied to one
`<a>` element: `none` when the anchor is skipped, `some (title, url)` when it
is accepted. -/
def anchorAccept (n : Node) : Option (String × String) :=
  if hasStrongDescendant n then none
  else
    match attrGet (attrsOf n) "href" with
    | none => none
    | some href =>
      if href == "" then none
      else
        let href_lower := pyLower href
        if strStartsWith "mailto:" href_lower then none
        else if exclude_substrings.any (fun sub => containsSub sub href_lower) then none
        else
          let domain := hostnameOf href
          if !(strEndsWith "ft.com" domain || strEndsWith "on.ft.com" domain) then none
          else
            let title_text := getTextStrip n
            if text_keywords.any (fun kw => containsSub kw (pyLower title_text)) then none
            else some (if title_text == "" then href else title_text, href)

/-- The inner traversal of `extract_article_links`: walk the flattened
document-order sequence after a matched heading, skipping string nodes,
stopping at the next `<strong>` or `<hr>`, and collecting accepted anchors. -/
def collectRun : List Node → List (String × String)
  | [] => []
  | n :: rest =>
    match tagOf n with
    | none => collectRun rest
    | some t =>
      if t == "strong" || t == "hr" then []
      else if t == "a" then
        match anchorAccept n with
        | some p => p :: collectRun rest
        | none => collectRun rest
      else collectRun rest

/-- The outer loop of `extract_article_links` over the flattened document:
each marker-matching `<strong>` starts a run; the first run that yields at
least one accepted link is returned (a run that yields none falls through to
the next matching heading, as the source's `if article_links: break` does). -/
def extractFrom : List Node → List (String × String)
  | [] => []
  | n :: rest =>
    if isMarkerStrong n then
      let links := collectRun rest
      if links.isEmpty then extractFrom rest else links
    else extractFrom rest

/-- `extract_article_links(description_html)`, taking the already-parsed
description tree (parsing itself is the external BeautifulSoup capability). -/
def extract_article_links (doc : List Node) : List (String × String) :=
  extractFrom (flattenList doc)

/-- One output feed item (the dicts appended to `all_items` in `main`). -/
structure Item where
  title : String
  link : String
  pubDate : String
  description : String
deriving DecidableEq

/-- One per-episode link group (the dicts appended to `episodes` in `main`);
`links` keeps the extractor's (title, url) pairs. -/
structure Episode where
  podcast : String
  episode : String
  pubDate : String
  links : List (String × String)
deriving DecidableEq

/-- One feed entry as exposed by the external feed capability: its title, the
parsed description tree, and optionally a structured published time
(`time.mktime(entry.published_parsed)` as a timestamp). -/
structure Entry where
  title : String
  doc : List Node
  published : Option Nat

/-- One parsed feed: its title and its entries. -/
structure Feed where
  title : String
  entries : List Entry

/-- The item description
`f"Article mentioned in '{entry.title}' from {feed_title}."`. -/
def mkDesc (entryTitle feedTitle : String) : String :=
  "Article mentioned in \x27" ++ entryTitle ++ "\x27 from " ++ feedTitle ++ "."

/-- The per-entry body of `main`'s loop.  `fmt` models
`email.utils.formatdate(·, usegmt=True)` and `now` the current timestamp.
Returns the `Item`s appended to `all_items` and the `Episode` appended to
`episodes` (`none` when the entry is skipped). -/
def processEntry (fmt : Nat → String) (now cutoff_ts : Nat) (feed_title : String)
    (e : Entry) : List Item × Option Episode :=
  let article_links := extract_article_links e.doc
  if article_links.isEmpty then ([], none)
  else
    match e.published with
    | some entry_ts =>
      if entry_ts < cutoff_ts then ([], none)
      else
        let pub_date := fmt entry_ts
        (article_links.map (fun p =>
            { title := p.1, link := p.2, pubDate := pub_date,
              description := mkDesc e.title feed_title }),
         some { podcast := feed_title, episode := e.title, pubDate := pub_date,
                links := article_links })
    | none =>
      let pub_date := fmt now
      (article_links.map (fun p =>
          { title := p.1, link := p.2, pubDate := pub_date,
            description := mkDesc e.title feed_title }),
       some { podcast := feed_title, episode := e.title, pubDate := pub_date,
              links := article_links })

/-- `main`'s inner loop over the entries of one feed, accumulating items and
episodes in order. -/
def processEntries (fmt : Nat → String) (now cutoff_ts : Nat) (feed_title : String) :
    List Entry → List Item × List Episode
  | [] => ([], [])
  | e :: es =>
    let r := processEntry fmt now cutoff_ts feed_title e
    let rest := processEntries fmt now cutoff_ts feed_title es
    (r.1 ++ rest.1,
     match r.2 with
     | some ep => ep :: rest.2
     | none => rest.2)

/-- `main`'s outer loop over the fetched feeds. -/
def aggregateFeeds (fmt : Nat → String) (now cutoff_ts : Nat) :
    List Feed → List Item × List Episode
  | [] => ([], [])
  | f :: fs =>
    let r := processEntries fmt now cutoff_ts f.title f.entries
    let rest := aggregateFeeds fmt now cutoff_ts fs
    (r.1 ++ rest.1, r.2 ++ rest.2)

/-- `parse_pubdate` from `main`: `pd` models
`email.utils.parsedate_to_datetime(...).timestamp()` (external; `none` models
its exception), and a failed parse maps to `0.0`, the epoch. -/
def parse_pubdate (pd : String → Option Nat) (pubdate : String) : Nat :=
  match pd pubdate with
  | some t => t
  | none => 0

/-- `all_items.sort(key=lambda x: parse_pubdate(x["pubDate"]), reverse=True)`:
a stable sort, descending by parsed publication timestamp. -/
def sortItems (pd : String → Option Nat) (items : List Item) : List Item :=
  items.mergeSort (fun a b =>
    decide (parse_pubdate pd b.pubDate ≤ parse_pubdate pd a.pubDate))

/-- `episodes.sort(key=lambda x: parse_pubdate(x["pubDate"]), reverse=True)`. -/
def sortEpisodes (pd : String → Option Nat) (eps : List Episode) : List Episode :=
  eps.mergeSort (fun a b =>
    decide (parse_pubdate pd b.pubDate ≤ parse_pubdate pd a.pubDate))

/-- One `<item>` element of the generated channel, with the text of each of
its child elements. -/
structure RssItem where
  title : String
  link : String
  guid : String
  pubDate : String
  description : String
deriving DecidableEq

/-- The generated `<channel>` (its serialization to XML text is the external
`xml.etree.ElementTree` capability). -/
structure RssChannel where
  title : String
  link : String
  description : String
  lastBuildDate : String
  items : List RssItem

/-- `build_rss_channel(items)`; `lastBuild` stands for the externally
formatted `email.utils.formatdate(time.time(), usegmt=True)`.  The `guid`
text of each item is set to the item's `link`. -/
def build_rss_channel (lastBuild : String) (items : List Item) : RssChannel :=
  { title := "FT Podcast Articles Feed",
    link := "https://example.com/generated_feed.xml",
    description :=
      "An automatically generated feed of articles mentioned in FT " ++
      "podcasts. Each item corresponds to a free‑to‑read or mentioned " ++
      "article extracted from the podcast RSS feeds.",
    lastBuildDate := lastBuild,
    items := items.map (fun item =>
      { title := item.title, link := item.link, guid := item.link,
        pubDate := item.pubDate, description := item.description }) }

/-- Python `html.escape(s)` on one character. -/
def htmlEscapeChar (c : Char) : List Char :=
  if c = '&' then "&amp;".data
  else if c = '<' then "&lt;".data
  else if c = '>' then "&gt;".data
  else if c = '"' then "&quot;".data
  else if c = '\'' then "&#x27;".data
  else [c]

/-- Python `html.escape(s)` (quote=True). -/
def htmlEscape (s : String) : String := ⟨s.data.flatMap htmlEscapeChar⟩

/-- The HTML fragment `generate_html_pages` emits for one episode. -/
def epHtml (ep : Episode) : List String :=
  ("<h2>" ++ htmlEscape ep.pubDate ++ " - " ++ htmlEscape ep.podcast ++ ": " ++
      htmlEscape ep.episode ++ "</h2>") ::
  "<ul>" ::
  ep.links.map (fun l =>
    "<li><a href=\x27" ++ htmlEscape l.2 ++ "\x27>" ++ htmlEscape l.1 ++ "</a></li>") ++
  ["</ul>"]

/-- One generated HTML page: its 0-based `page_num`, its episode chunk, the
`parts` joined into the file, the navigation hrefs, and the output path. -/
structure Page where
  page_num : Nat
  eps : List Episode
  parts : List String
  prevHref : Option String
  nextHref : Option String
  path : String

/-- The body of `generate_html_pages`'s loop for one `page_num`. -/
def mkPage (episodes : List Episode) (per_page total_pages page_num : Nat)
    (output_dir : String) : Page :=
  let page_eps := (episodes.drop (page_num * per_page)).take per_page
  let header :=
    ["<html><head><meta charset=\x27utf-8\x27><title>FT Podcast Links - Page " ++
       toString (page_num + 1),
     "</title></head><body>"]
  let prevHref :=
    if page_num > 0 then some ("links_page_" ++ toString page_num ++ ".html") else none
  let nextHref :=
    if page_num < total_pages - 1 then
      some ("links_page_" ++ toString (page_num + 2) ++ ".html")
    else none
  let nav :=
    (match prevHref with
     | some h => ["<a href=\x27" ++ h ++ "\x27>Previous</a>"]
     | none => []) ++
    (match nextHref with
     | some h => ["<a href=\x27" ++ h ++ "\x27>Next</a>"]
     | none => [])
  let navPart := if nav.isEmpty then [] else ["<p>" ++ String.intercalate " | " nav ++ "</p>"]
  { page_num := page_num,
    eps := page_eps,
    parts := header ++ (page_eps.map epHtml).flatten ++ navPart ++ ["</body></html>"],
    prevHref := prevHref,
    nextHref := nextHref,
    path := output_dir ++ "/" ++ ("links_page_" ++ toString (page_num + 1) ++ ".html") }

/-- The observable effect of `generate_html_pages`: the pages written, the
line printed, and the function's return value.  The source is annotated
`-> None` and has no `return` statement, so `returned` is `none`. -/
structure RenderResult where
  pages : List Page
  printed : String
  returned : Option Nat

/-- `generate_html_pages(episodes, output_dir, per_page=10)`. -/
def generate_html_pages (episodes : List Episode) (output_dir : String)
    (per_page : Nat := 10) : RenderResult :=
  let total_pages := (episodes.length + per_page - 1) / per_page
  { pages := (List.range total_pages).map (fun page_num =>
      mkPage episodes per_page total_pages page_num output_dir),
    printed := "Generated " ++ toString total_pages ++ " HTML page(s) in " ++ output_dir,
    returned := none }

/-- Modelled from Python `int(str)` on ASCII decimal literals: optional
surrounding whitespace, an optional sign, then at least one digit; `none`
models `ValueError`. -/
def pyParseInt (s : String) : Option Int :=
  let t := pyStripL s.data
  let sign : Int :=
    match t with
    | '-' :: _ => -1
    | _ => 1
  let digits :=
    match t with
    | '+' :: rest => rest
    | '-' :: rest => rest
    | _ => t
  if digits.isEmpty || !digits.all Char.isDigit then none
  else some (sign * (digits.foldl (fun acc c => acc * 10 + (c.toNat - 48)) 0 : Nat))

/-- The `days_limit` computation in `main`: `env` is
`os.environ.get("DAYS_LIMIT")` (the `get` default is `"5"`), a `ValueError`
or a parsed value below 1 falls back to 5.  The second component collects the
messages written to the error stream along the way — there are none. -/
def days_limit (env : Option String) : Int × List String :=
  match pyParseInt (env.getD "5") with
  | some n => (if n < 1 then 5 else n, [])
  | none => (5, [])

/-- The two default feed URLs. -/
def default_feeds : List String :=
  ["https://feeds.acast.com/public/shows/ft-tech-tonic",
   "https://feeds.acast.com/public/shows/ftnewsbriefing"]

/-- Split a character list at whitespace, keeping empty runs. -/
def splitRuns (l : List Char) : List (List Char) :=
  l.foldr (fun c acc =>
    if Char.isWhitespace c then [] :: acc
    else
      match acc with
      | [] => [[c]]
      | w :: ws => (c :: w) :: ws) []

/-- Python `str.split()` with no argument: the maximal non-empty runs of
non-whitespace characters. -/
def pySplit (s : String) : List String :=
  ((splitRuns s.data).filter (fun w => !w.isEmpty)).map (fun w => ⟨w⟩)

/-- The feed-URL selection at the top of `main`: `env` is
`os.environ.get("FEED_URLS")`; a truthy (set and non-empty) value is split on
whitespace with each piece stripped and empty pieces dropped, otherwise the
defaults are used. -/
def feedUrls (env : Option String) : List String :=
  match env with
  | none => default_feeds
  | some s =>
    if s == "" then default_feeds
    else (pySplit s).filterMap (fun url =>
      let t := pyStrip url
      if t == "" then none else some t)

/-- A description whose marker heading is followed by an anchor with the
spoofed hostname `fakeft.com`. -/
def docFakeFt : List Node :=
  [ .elem "strong" [] [.text "Free to read:"],
    .elem "a" [("href", "https://fakeft.com/x")] [.text "Some article"] ]

/-- A description whose marker heading is followed by an anchor on
`www.ft.com`. -/
def docWww : List Node :=
  [ .elem "strong" [] [.text "Free to read:"],
    .elem "a" [("href", "https://www.ft.com/x")] [.text "Good article"] ]

/-- A description whose marker heading is followed by an anchor on
`on.ft.com`. -/
def docOn : List Node :=
  [ .elem "strong" [] [.text "Free to read:"],
    .elem "a" [("href", "https://on.ft.com/y")] [.text "Short link"] ]

/-- A description with two marker headings: the first is followed by no
anchors at all before the second heading, the second by a qualifying
anchor. -/
def docTwoHeadings : List Node :=
  [ .elem "strong" [] [.text "Mentioned in this podcast:"],
    .text "no links here",
    .elem "strong" [] [.text "Free to read:"],
    .elem "a" [("href", "https://www.ft.com/a")] [.text "Later article"] ]

/-- A description with one marker heading followed by a qualifying anchor, a
mailto anchor and an off-domain anchor. -/
def docMixed : List Node :=
  [ .elem "strong" [] [.text "Free to read:"],
    .elem "a" [("href", "https://www.ft.com/x")] [.text "Good article"],
    .elem "a" [("href", "mailto:tips@ft.com")] [.text "Email us"],
    .elem "a" [("href", "https://twitter.com/ft")] [.text "Follow"] ]

/-- A sample episode used by the pagination witnesses. -/
def dummyEp (i : Nat) : Episode :=
  { podcast := "P", episode := toString i, pubDate := "D", links := [("t", "u")] }

/-- Twenty-five sample episodes. -/
def eps25 : List Episode := (List.range 25).map dummyEp

/-- A sample entry with no structured published time. -/
def entryNoDate : Entry := { title := "Ep", doc := docMixed, published := none }

/-- A sample entry published at timestamp 3. -/
def entryOld : Entry := { title := "Old", doc := docMixed, published := some 3 }

/-- A sample pubDate parser that fails on `"bad"` and reads `"t5"` as 5. -/
def pdW : String → Option Nat :=
  fun s => if s == "t5" then some 5 else none

/-! ## Theorems -/

/-- Claim C1: the hostname filter in `extract_article_links` is a raw
`str.endswith("ft.com")`, not a dot-boundary match: the spoofed hostname
`fakeft.com` passes it, so an anchor to `https://fakeft.com/x` after a
marker heading is accepted and returned, while `www.ft.com` and `on.ft.com`
anchors are accepted as the claim states.  This exhibits the code accepting
the very input the claim (and the code's own comment restricting links to
the Financial Times domains) says must be rejected. -/
theorem extract_accepts_fakeft :
    hostnameOf "https://fakeft.com/x" = "fakeft.com" ∧
    extract_article_links docFakeFt = [("Some article", "https://fakeft.com/x")] ∧
    extract_article_links docWww = [("Good article", "https://www.ft.com/x")] ∧
    extract_article_links docOn = [("Short link", "https://on.ft.com/y")] := by
  refine ⟨rfl, ?_, ?_, ?_⟩ <;> rfl

/-- Claim C2 counterexample: in `docTwoHeadings` the first marker-matching heading
is followed by zero qualifying anchors (its run is empty), yet `extract`
returns the second matching heading's link instead of the empty sequence the
claim requires. -/
theorem extract_uses_later_heading :
    isMarkerStrong (Node.elem "strong" [] [Node.text "Mentioned in this podcast:"]) = true ∧
    collectRun ((flattenList docTwoHeadings).drop 1) = [] ∧
    extract_article_links docTwoHeadings = [("Later article", "https://www.ft.com/a")] := by
  refine ⟨rfl, rfl, rfl⟩

/-- Claim C2 (amended): a marker-matching heading whose run yields zero accepted
links does not consume the extraction — scanning falls through past it, so a
later matching heading followed by qualifying anchors is used and its links
are returned. -/
theorem extractFrom_falls_through (n : Node) (rest : List Node)
    (hm : isMarkerStrong n = true) (he : collectRun rest = []) :
    extractFrom (n :: rest) = extractFrom rest := by
  simp [extractFrom, hm, he]

/-- Witness for `extractFrom_falls_through` at a concrete heading and run. -/
theorem extractFrom_falls_through_witness :
    isMarkerStrong (Node.elem "strong" [] [Node.text "Free to read:"]) = true ∧
    collectRun [Node.text "x"] = [] ∧
    extractFrom (Node.elem "strong" [] [Node.text "Free to read:"] :: [Node.text "x"]) =
      extractFrom [Node.text "x"] :=
  ⟨rfl, rfl, extractFrom_falls_through _ _ rfl rfl⟩

/-- Claim C7 counterexample: with 25 episodes and page size 10,
`generate_html_pages` writes 3 pages, returns `None` (the source is annotated
`-> None` and has no return statement), and in particular does not return the
count of pages written. -/
theorem generate_html_pages_no_return_count :
    (generate_html_pages eps25 "output" 10).pages.length = 3 ∧
    (generate_html_pages eps25 "output" 10).returned = none ∧
    (generate_html_pages eps25 "output" 10).returned ≠
      some ((generate_html_pages eps25 "output" 10).pages.length) := by
  refine ⟨by decide, rfl, by simp [generate_html_pages]⟩

/-- Claim C7 (amended): for every episodes list, output directory and page size,
`generate_html_pages` returns `None`; the count of pages it writes is
`ceil(len(episodes)/per_page)` and is reported in its printed message, not in
its return value. -/
theorem generate_html_pages_contract (eps : List Episode) (dir : String) (per : Nat) :
    (generate_html_pages eps dir per).returned = none ∧
    (generate_html_pages eps dir per).pages.length = (eps.length + per - 1) / per ∧
    (generate_html_pages eps dir per).printed =
      "Generated " ++ toString ((generate_html_pages eps dir per).pages.length) ++
        " HTML page(s) in " ++ dir := by
  refine ⟨rfl, ?_, ?_⟩ <;> simp [generate_html_pages]

/-- Claim C8: the effective day limit equals the parsed integer when `DAYS_LIMIT`
parses to a numeral at least 1, and equals 5 when the variable is unset (the
`os.environ.get` default `"5"` is used), non-numeric or empty (`int` raises),
or parses below 1; in every case nothing is written to the error stream. -/
theorem days_limit_spec (env : Option String) :
    days_limit none = (5, []) ∧
    (∀ s, env = some s →
      ((∀ n : Int, pyParseInt s = some n → 1 ≤ n → days_limit env = (n, [])) ∧
       (∀ n : Int, pyParseInt s = some n → n < 1 → days_limit env = (5, [])) ∧
       (pyParseInt s = none → days_limit env = (5, [])))) := by
  refine ⟨by decide, ?_⟩
  rintro s rfl
  refine ⟨?_, ?_, ?_⟩
  · intro n hp hn
    simp only [days_limit, Option.getD, hp]
    rw [if_neg (by omega)]
  · intro n hp hn
    simp only [days_limit, Option.getD, hp]
    rw [if_pos hn]
  · intro hp
    simp only [days_limit, Option.getD, hp]

/-- Witness for `days_limit_spec`: `DAYS_LIMIT="7"` yields 7 silently, and
`DAYS_LIMIT="abc"` falls back to 5 silently. -/
theorem days_limit_spec_witness :
    pyParseInt "7" = some 7 ∧ days_limit (some "7") = (7, []) ∧
    pyParseInt "abc" = none ∧ days_limit (some "abc") = (5, []) :=
  ⟨by decide,
   ((days_limit_spec (some "7")).2 "7" rfl).1 7 (by decide) (by decide),
   by decide,
   ((days_limit_spec (some "abc")).2 "abc" rfl).2.2 (by decide)⟩

/-- Claim C3: for an entry whose description yields links, an entry with a
structured published time older than the cutoff contributes nothing to the
items or episodes accumulated by `main`'s loop, while an entry with no
structured published time is always included, with the current instant as
its publication date. -/
theorem cutoff_filter (fmt : Nat → String) (now cutoff_ts : Nat) (ft : String)
    (e : Entry) (es : List Entry)
    (hlinks : extract_article_links e.doc ≠ []) :
    (∀ ts, e.published = some ts → ts < cutoff_ts →
        processEntries fmt now cutoff_ts ft (e :: es) =
          processEntries fmt now cutoff_ts ft es) ∧
    (e.published = none →
        processEntries fmt now cutoff_ts ft (e :: es) =
          ((extract_article_links e.doc).map (fun p =>
              { title := p.1, link := p.2, pubDate := fmt now,
                description := mkDesc e.title ft }) ++
            (processEntries fmt now cutoff_ts ft es).1,
           { podcast := ft, episode := e.title, pubDate := fmt now,
             links := extract_article_links e.doc } ::
            (processEntries fmt now cutoff_ts ft es).2)) := by
  constructor
  · rintro ts hpub hlt
    have hpe : processEntry fmt now cutoff_ts ft e = ([], none) := by
      unfold processEntry
      rw [hpub]
      cases hE : (extract_article_links e.doc).isEmpty <;> simp [hE, hlt]
    simp [processEntries, hpe]
  · intro hpub
    have hE : (extract_article_links e.doc).isEmpty = false := by
      cases hE : (extract_article_links e.doc).isEmpty
      · rfl
      · exact absurd (List.isEmpty_iff.mp hE) hlinks
    have hpe : processEntry fmt now cutoff_ts ft e =
        ((extract_article_links e.doc).map (fun p =>
            { title := p.1, link := p.2, pubDate := fmt now,
              description := mkDesc e.title ft }),
         some { podcast := ft, episode := e.title, pubDate := fmt now,
                links := extract_article_links e.doc }) := by
      unfold processEntry
      rw [hpub]
      simp [hE]
    simp [processEntries, hpe]

/-- Witness for `cutoff_filter`: an entry published at 3 with cutoff 10
contributes nothing. -/
theorem cutoff_filter_witness :
    extract_article_links entryOld.doc ≠ [] ∧
    entryOld.published = some 3 ∧ (3 : Nat) < 10 ∧
    processEntries (fun _ => "now") 100 10 "FT" [entryOld] =
      processEntries (fun _ => "now") 100 10 "FT" [] :=
  ⟨by decide, rfl, by decide,
   (cutoff_filter (fun _ => "now") 100 10 "FT" entryOld [] (by decide)).1 3 rfl
     (by decide)⟩

/-- Splitting a list of whitespace characters leaves no non-empty run. -/
theorem splitRuns_ws_filter (l : List Char) (h : ∀ c ∈ l, c.isWhitespace = true) :
    (splitRuns l).filter (fun w => !w.isEmpty) = [] := by
  induction l with
  | nil => rfl
  | cons c t ih =>
    have hc : c.isWhitespace = true := h c (by simp)
    have ht : ∀ x ∈ t, x.isWhitespace = true := fun x hx => h x (by simp [hx])
    have hsplit : splitRuns (c :: t) = [] :: splitRuns t := by
      simp [splitRuns, hc]
    rw [hsplit]
    simpa using ih ht

/-- Claim C10: a `FEED_URLS` value that is set, non-empty and all whitespace
yields the empty feed-URL list — and hence an RSS channel with no items and
zero HTML pages — while the default list is used when the variable is unset
or the empty string. -/
theorem feedUrls_whitespace (s lb dir : String)
    (pd : String → Option Nat) (fmt : Nat → String) (now cutoff : Nat)
    (fetch : String → Option Feed)
    (hne : s ≠ "") (hws : ∀ c ∈ s.data, c.isWhitespace = true) :
    feedUrls (some s) = [] ∧
    feedUrls none = default_feeds ∧
    feedUrls (some "") = default_feeds ∧
    (build_rss_channel lb (sortItems pd
        (aggregateFeeds fmt now cutoff ((feedUrls (some s)).filterMap fetch)).1)).items = [] ∧
    (generate_html_pages (sortEpisodes pd
        (aggregateFeeds fmt now cutoff ((feedUrls (some s)).filterMap fetch)).2) dir).pages = [] := by
  have h1 : pySplit s = [] := by
    unfold pySplit
    rw [splitRuns_ws_filter s.data hws]
    rfl
  have h2 : feedUrls (some s) = [] := by
    simp only [feedUrls]
    rw [if_neg (by simpa using hne), h1]
    rfl
  refine ⟨h2, rfl, rfl, ?_, ?_⟩ <;>
    simp [h2, aggregateFeeds, sortItems, sortEpisodes, build_rss_channel,
      generate_html_pages]

/-- Witness for `feedUrls_whitespace` at the one-space string. -/
theorem feedUrls_whitespace_witness :
    (" " : String) ≠ "" ∧ feedUrls (some " ") = [] ∧
    feedUrls none = default_feeds := by
  have h := feedUrls_whitespace " " "lb" "out" (fun _ => none) (fun _ => "") 0 0
    (fun _ => none) (by decide) (by decide)
  exact ⟨by decide, h.1, h.2.1⟩

/-- Claim C4: both lists are sorted in descending order of the publication
instant parsed from each element's pubDate string by `parse_pubdate`; an
element whose pubDate fails to parse gets the epoch key 0, the least possible
key, and so orders after every other element. -/
theorem sort_desc (pd : String → Option Nat) (items : List Item) (eps : List Episode) :
    (sortItems pd items).Perm items ∧
    List.Pairwise (fun a b => parse_pubdate pd b.pubDate ≤ parse_pubdate pd a.pubDate)
      (sortItems pd items) ∧
    (sortEpisodes pd eps).Perm eps ∧
    List.Pairwise (fun a b => parse_pubdate pd b.pubDate ≤ parse_pubdate pd a.pubDate)
      (sortEpisodes pd eps) ∧
    (∀ s, pd s = none →
      parse_pubdate pd s = 0 ∧ ∀ s2, parse_pubdate pd s ≤ parse_pubdate pd s2) := by
  refine ⟨List.mergeSort_perm _ _, ?_, List.mergeSort_perm _ _, ?_, ?_⟩
  · have h := @List.sorted_mergeSort Item
      (fun a b => decide (parse_pubdate pd b.pubDate ≤ parse_pubdate pd a.pubDate))
      (fun a b c hab hbc => by
        simp only [decide_eq_true_eq] at *
        omega)
      (fun a b => by
        simp only [Bool.or_eq_true, decide_eq_true_eq]
        omega)
      items
    exact h.imp (fun hab => by simpa using hab)
  · have h := @List.sorted_mergeSort Episode
      (fun a b => decide (parse_pubdate pd b.pubDate ≤ parse_pubdate pd a.pubDate))
      (fun a b c hab hbc => by
        simp only [decide_eq_true_eq] at *
        omega)
      (fun a b => by
        simp only [Bool.or_eq_true, decide_eq_true_eq]
        omega)
      eps
    exact h.imp (fun hab => by simpa using hab)
  · intro s hs
    exact ⟨by simp [parse_pubdate, hs], fun s2 => by simp [parse_pubdate, hs]⟩

/-- Witness for `sort_desc`: the parser `pdW` fails on `"bad"`, which is
keyed as the epoch. -/
theorem sort_desc_witness :
    pdW "bad" = none ∧ parse_pubdate pdW "bad" = 0 := by
  have h := sort_desc pdW [] []
  exact ⟨rfl, (h.2.2.2.2 "bad" rfl).1⟩

/-- One step of the ceiling division `(n + per - 1) / per` for positive `n`. -/
theorem ceil_div_succ (per n : Nat) (hper : 0 < per) (hn : 0 < n) :
    (n + per - 1) / per = ((n - per) + per - 1) / per + 1 := by
  rcases le_or_lt n per with hle | hgt
  · have h2 : n - per = 0 := by omega
    have h1 : n + per - 1 = (n - 1) + per := by omega
    rw [h2, h1, Nat.add_div_right _ hper]
    rw [Nat.div_eq_of_lt (by omega), Nat.div_eq_of_lt (by omega)]
  · have h1 : n + per - 1 = ((n - per - 1) + per) + per := by omega
    have h2 : n - per + per - 1 = (n - per - 1) + per := by omega
    rw [h1, h2, Nat.add_div_right _ hper, Nat.add_div_right _ hper]

/-- The consecutive `drop/take` chunks taken by the pagination loop
reassemble the whole list. -/
theorem chunks_flatten {α : Type} (per : Nat) (hper : 0 < per) :
    ∀ (l : List α),
      ((List.range ((l.length + per - 1) / per)).map
        (fun i => (l.drop (i * per)).take per)).flatten = l
  | [] => by simp
  | a :: t => by
    have htot : ((a :: t).length + per - 1) / per
        = (((a :: t).drop per).length + per - 1) / per + 1 := by
      rw [List.length_drop]
      exact ceil_div_succ per (a :: t).length hper (by simp)
    rw [htot, List.range_succ_eq_map, List.map_cons]
    simp only [Nat.zero_mul, List.drop_zero, List.map_map]
    rw [List.flatten_cons]
    have hmap : (List.range ((((a :: t).drop per).length + per - 1) / per)).map
        ((fun i => ((a :: t).drop (i * per)).take per) ∘ Nat.succ) =
        (List.range ((((a :: t).drop per).length + per - 1) / per)).map
          (fun i => (((a :: t).drop per).drop (i * per)).take per) := by
      apply List.map_congr_left
      intro i _
      simp only [Function.comp]
      rw [List.drop_drop, Nat.succ_mul, Nat.add_comm per (i * per)]
    rw [hmap, chunks_flatten per hper ((a :: t).drop per)]
    exact List.take_append_drop per (a :: t)
termination_by l => l.length
decreasing_by simp [List.length_drop]; omega

/-- Claim C5: the page renderer partitions the episodes into consecutive
`pageSize` chunks in order (each page holds the `drop/take` chunk at its
index, of length at most `pageSize`, the chunks reassemble the input, and
zero episodes produce zero pages); with 25 episodes and page size 10 it
produces 3 pages of 10, 10 and 5 episodes, where page 1 has no Previous link
and a Next link to `links_page_2.html`, and page 3 has a Previous link to
`links_page_2.html` and no Next link. -/
theorem pagination_spec (eps : List Episode) (dir : String) (per : Nat) (hper : 0 < per) :
    (((generate_html_pages eps dir per).pages.map Page.eps).flatten = eps) ∧
    (∀ p ∈ (generate_html_pages eps dir per).pages,
        p.eps = (eps.drop (p.page_num * per)).take per ∧ p.eps.length ≤ per) ∧
    (eps = [] → (generate_html_pages eps dir per).pages = []) ∧
    ((generate_html_pages eps25 "output" 10).pages.map
        (fun p => (p.eps.length, p.prevHref, p.nextHref)) =
      [(10, none, some "links_page_2.html"),
       (10, some "links_page_1.html", some "links_page_3.html"),
       (5, some "links_page_2.html", none)]) := by
  refine ⟨?_, ?_, ?_, by decide⟩
  · have h : (generate_html_pages eps dir per).pages.map Page.eps =
        (List.range ((eps.length + per - 1) / per)).map
          (fun i => (eps.drop (i * per)).take per) := by
      simp [generate_html_pages, mkPage, List.map_map]
    rw [h]
    exact chunks_flatten per hper eps
  · intro p hp
    simp only [generate_html_pages, List.mem_map, List.mem_range] at hp
    obtain ⟨i, hi, rfl⟩ := hp
    exact ⟨rfl, List.length_take_le _ _⟩
  · rintro rfl
    have h0 : (per - 1) / per = 0 := Nat.div_eq_of_lt (by omega)
    simp [generate_html_pages, h0]

/-- Witness for `pagination_spec` at 25 episodes and page size 10. -/
theorem pagination_spec_witness :
    0 < 10 ∧
    ((generate_html_pages eps25 "output" 10).pages.map Page.eps).flatten = eps25 :=
  ⟨by decide, (pagination_spec eps25 "output" 10 (by decide)).1⟩

/-- `processEntry` either skips the entry entirely or emits one item per
extracted link together with the matching episode group, all carrying one
publication-date string. -/
theorem procEntry_shape (fmt : Nat → String) (now cutoff_ts : Nat) (ft : String)
    (e : Entry) :
    processEntry fmt now cutoff_ts ft e = ([], none) ∨
    ∃ pub, processEntry fmt now cutoff_ts ft e =
      ((extract_article_links e.doc).map (fun p =>
          { title := p.1, link := p.2, pubDate := pub,
            description := mkDesc e.title ft }),
       some { podcast := ft, episode := e.title, pubDate := pub,
              links := extract_article_links e.doc }) := by
  unfold processEntry
  cases hE : (extract_article_links e.doc).isEmpty
  · cases hpub : e.published with
    | none =>
      right
      exact ⟨fmt now, by simp [hE]⟩
    | some ts =>
      by_cases hlt : ts < cutoff_ts
      · left
        simp [hE, hlt]
      · right
        exact ⟨fmt ts, by simp [hE, hlt]⟩
  · left
    simp [hE]

/-- The items accumulated by `main`'s entry loop carry, as their links,
exactly the urls of the accumulated episode groups, in order. -/
theorem procEntries_links (fmt : Nat → String) (now cutoff_ts : Nat) (ft : String)
    (es : List Entry) :
    ((processEntries fmt now cutoff_ts ft es).1).map (fun it => (it.link, it.link)) =
    (((processEntries fmt now cutoff_ts ft es).2).map
        (fun ep => ep.links.map (fun l => (l.2, l.2)))).flatten := by
  induction es with
  | nil => rfl
  | cons e es ih =>
    rcases procEntry_shape fmt now cutoff_ts ft e with h | ⟨pub, h⟩
    · simp [processEntries, h, ih]
    · simp [processEntries, h, ih, List.map_map]

/-- `procEntries_links` lifted over the feed loop. -/
theorem agg_links (fmt : Nat → String) (now cutoff_ts : Nat) (fs : List Feed) :
    ((aggregateFeeds fmt now cutoff_ts fs).1).map (fun it => (it.link, it.link)) =
    (((aggregateFeeds fmt now cutoff_ts fs).2).map
        (fun ep => ep.links.map (fun l => (l.2, l.2)))).flatten := by
  induction fs with
  | nil => rfl
  | cons f fs ih =>
    simp [aggregateFeeds, procEntries_links, ih]

/-- Claim C6: the multiset of (link text, guid text) pairs of the generated
channel's items equals the multiset of (url, url) pairs over every accepted
ArticleLink of every included entry — each accepted url appears verbatim as
both the link and the guid of exactly one item. -/
theorem rss_link_guid (pd : String → Option Nat) (lb : String) (fmt : Nat → String)
    (now cutoff_ts : Nat) (fs : List Feed) :
    ((build_rss_channel lb
        (sortItems pd (aggregateFeeds fmt now cutoff_ts fs).1)).items.map
      (fun r => (r.link, r.guid))).Perm
      ((((aggregateFeeds fmt now cutoff_ts fs).2).map
          (fun ep => ep.links.map (fun l => (l.2, l.2)))).flatten) := by
  have h1 : (build_rss_channel lb
      (sortItems pd (aggregateFeeds fmt now cutoff_ts fs).1)).items.map
        (fun r => (r.link, r.guid)) =
      (sortItems pd (aggregateFeeds fmt now cutoff_ts fs).1).map
        (fun it => (it.link, it.link)) := by
    simp [build_rss_channel, List.map_map]
  rw [h1, ← agg_links]
  exact (List.mergeSort_perm _ _).map _

/-- Every pair collected by the run traversal comes from an `<a>` node of the
sequence that the anchor filter accepts. -/
theorem mem_collectRun (p : String × String) :
    ∀ (seq : List Node), p ∈ collectRun seq →
      ∃ n, n ∈ seq ∧ tagOf n = some "a" ∧ anchorAccept n = some p := by
  intro seq
  induction seq with
  | nil => intro h; simp [collectRun] at h
  | cons n rest ih =>
    intro h
    cases htag : tagOf n with
    | none =>
      simp only [collectRun, htag] at h
      obtain ⟨m, hm, hmt, hma⟩ := ih h
      exact ⟨m, List.mem_cons_of_mem _ hm, hmt, hma⟩
    | some t =>
      simp only [collectRun, htag] at h
      by_cases hsh : (t == "strong" || t == "hr") = true
      · rw [if_pos hsh] at h
        simp at h
      · rw [if_neg hsh] at h
        by_cases hta : (t == "a") = true
        · rw [if_pos hta] at h
          cases hacc : anchorAccept n with
          | none =>
            rw [hacc] at h
            obtain ⟨m, hm, hmt, hma⟩ := ih h
            exact ⟨m, List.mem_cons_of_mem _ hm, hmt, hma⟩
          | some q =>
            rw [hacc] at h
            rcases List.mem_cons.mp h with rfl | h2
            · refine ⟨n, List.mem_cons_self _ _, ?_, hacc⟩
              rw [htag]
              congr 1
              exact beq_iff_eq.mp hta
            · obtain ⟨m, hm, hmt, hma⟩ := ih h2
              exact ⟨m, List.mem_cons_of_mem _ hm, hmt, hma⟩
        · rw [if_neg hta] at h
          obtain ⟨m, hm, hmt, hma⟩ := ih h
          exact ⟨m, List.mem_cons_of_mem _ hm, hmt, hma⟩

/-- Every pair returned by the outer extraction loop comes from an `<a>` node
of the sequence that the anchor filter accepts. -/
theorem mem_extractFrom (p : String × String) :
    ∀ (seq : List Node), p ∈ extractFrom seq →
      ∃ n, n ∈ seq ∧ tagOf n = some "a" ∧ anchorAccept n = some p := by
  intro seq
  induction seq with
  | nil => intro h; simp [extractFrom] at h
  | cons n rest ih =>
    intro h
    by_cases hm : isMarkerStrong n = true
    · simp only [extractFrom, hm, if_true] at h
      by_cases he : (collectRun rest).isEmpty = true
      · rw [if_pos he] at h
        obtain ⟨m, hmem, hmt, hma⟩ := ih h
        exact ⟨m, List.mem_cons_of_mem _ hmem, hmt, hma⟩
      · rw [if_neg he] at h
        obtain ⟨m, hmem, hmt, hma⟩ := mem_collectRun p rest h
        exact ⟨m, List.mem_cons_of_mem _ hmem, hmt, hma⟩
    · rw [Bool.not_eq_true] at hm
      simp only [extractFrom, hm, Bool.false_eq_true, if_false] at h
      obtain ⟨m, hmem, hmt, hma⟩ := ih h
      exact ⟨m, List.mem_cons_of_mem _ hmem, hmt, hma⟩

/-- An anchor accepted by the filter chain has a non-empty href that passes
the mailto, exclusion-substring and domain checks, keyword-free visible text,
and the documented title fallback. -/
theorem anchorAccept_spec (n : Node) (p : String × String)
    (h : anchorAccept n = some p) :
    attrGet (attrsOf n) "href" = some p.2 ∧
    p.2 ≠ "" ∧
    strStartsWith "mailto:" (pyLower p.2) = false ∧
    (∀ sub ∈ exclude_substrings, containsSub sub (pyLower p.2) = false) ∧
    (strEndsWith "ft.com" (hostnameOf p.2) = true ∨
      strEndsWith "on.ft.com" (hostnameOf p.2) = true) ∧
    (∀ kw ∈ text_keywords, containsSub kw (pyLower (getTextStrip n)) = false) ∧
    p.1 ≠ "" ∧
    p.1 = (if getTextStrip n = "" then p.2 else getTextStrip n) := by
  unfold anchorAccept at h
  by_cases hsd : hasStrongDescendant n = true
  · simp [hsd] at h
  · rw [Bool.not_eq_true] at hsd
    simp only [hsd, Bool.false_eq_true, if_false] at h
    cases hhref : attrGet (attrsOf n) "href" with
    | none => rw [hhref] at h; simp at h
    | some href =>
      rw [hhref] at h
      simp only at h
      by_cases hemp : (href == "") = true
      · simp [hemp] at h
      · rw [if_neg hemp] at h
        by_cases hml : strStartsWith "mailto:" (pyLower href) = true
        · simp [hml] at h
        · rw [Bool.not_eq_true] at hml
          simp only [hml, Bool.false_eq_true, if_false] at h
          by_cases hex : (exclude_substrings.any
              (fun sub => containsSub sub (pyLower href))) = true
          · simp [hex] at h
          · rw [Bool.not_eq_true] at hex
            simp only [hex, Bool.false_eq_true, if_false] at h
            by_cases hdom : (!(strEndsWith "ft.com" (hostnameOf href) ||
                strEndsWith "on.ft.com" (hostnameOf href))) = true
            · simp [hdom] at h
            · rw [Bool.not_eq_true] at hdom
              simp only [hdom, Bool.false_eq_true, if_false] at h
              by_cases hkw : (text_keywords.any
                  (fun kw => containsSub kw (pyLower (getTextStrip n)))) = true
              · simp [hkw] at h
              · rw [Bool.not_eq_true] at hkw
                simp only [hkw, Bool.false_eq_true, if_false] at h
                rw [Option.some_inj] at h
                subst h
                have hhne : href ≠ "" := by
                  intro hcontr
                  rw [hcontr] at hemp
                  exact hemp rfl
                have hdom2 : (strEndsWith "ft.com" (hostnameOf href) ||
                    strEndsWith "on.ft.com" (hostnameOf href)) = true := by
                  cases hb : (strEndsWith "ft.com" (hostnameOf href) ||
                      strEndsWith "on.ft.com" (hostnameOf href))
                  · rw [hb] at hdom; simp at hdom
                  · rfl
                refine ⟨?_, ?_, ?_, ?_, ?_, ?_, ?_, ?_⟩
                · simp
                · simpa using hhne
                · simpa using hml
                · intro sub hsub
                  have := List.any_eq_false.mp hex sub hsub
                  simpa using this
                · simpa using Bool.or_eq_true_iff.mp hdom2
                · intro kw hkw2
                  have := List.any_eq_false.mp hkw kw hkw2
                  simpa using this
                · by_cases ht : getTextStrip n = ""
                  · simp [ht]
                    exact hhne
                  · have : (getTextStrip n == "") = false := by
                      simpa using ht
                    simp [this]
                    exact ht
                · by_cases ht : getTextStrip n = ""
                  · simp [ht]
                  · have : (getTextStrip n == "") = false := by
                      simpa using ht
                    simp [this, ht]

/-- Claim C9: every (title, url) pair returned by `extract_article_links`
has a non-empty url passing the mailto, exclusion and domain filters; it
comes from an anchor node of the document whose href it is, whose visible
text avoids the excluded keywords, and the title is non-empty — the anchor's
stripped visible text when that is non-empty, else the url itself. -/
theorem extract_invariant (doc : List Node) (p : String × String)
    (hp : p ∈ extract_article_links doc) :
    p.2 ≠ "" ∧
    strStartsWith "mailto:" (pyLower p.2) = false ∧
    (∀ sub ∈ exclude_substrings, containsSub sub (pyLower p.2) = false) ∧
    (strEndsWith "ft.com" (hostnameOf p.2) = true ∨
      strEndsWith "on.ft.com" (hostnameOf p.2) = true) ∧
    p.1 ≠ "" ∧
    ∃ n, n ∈ flattenList doc ∧ tagOf n = some "a" ∧
      attrGet (attrsOf n) "href" = some p.2 ∧
      (∀ kw ∈ text_keywords, containsSub kw (pyLower (getTextStrip n)) = false) ∧
      p.1 = (if getTextStrip n = "" then p.2 else getTextStrip n) := by
  obtain ⟨n, hn, ht, ha⟩ := mem_extractFrom p (flattenList doc) hp
  obtain ⟨h1, h2, h3, h4, h5, h6, h7, h8⟩ := anchorAccept_spec n p ha
  exact ⟨h2, h3, h4, h5, h7, n, hn, ht, h1, h6, h8⟩

/-- Witness for `extract_invariant` on `docMixed`. -/
theorem extract_invariant_witness :
    ("Good article", "https://www.ft.com/x") ∈ extract_article_links docMixed ∧
    ("Good article" : String) ≠ "" ∧
    ("https://www.ft.com/x" : String) ≠ "" := by
  have h := extract_invariant docMixed ("Good article", "https://www.ft.com/x")
    (by decide)
  exact ⟨by decide, h.2.2.2.2.1, h.1⟩
